import Mathlib

/-!
Verification of the vaultShare backend (backend/server.js): a media vault that
stores uploads encrypted at rest and streams them back decrypted.  The
definitions below are a shallow embedding of the functions of server.js over
Lists and Strings; POSIX path strings are modelled through their segment
lists, and external primitives (the AES cipher, crypto.randomBytes, ffmpeg)
are modelled as concrete keyed byte transformations, since only their
structural properties (length, XOR-stream shape, determinism) are used by the
program logic under verification.
-/

deriving instance DecidableEq for Except

/-- Prefix test on character lists; model of JavaScript String.startsWith
applied through the underlying characters. -/
def listIsPre : List Char → List Char → Bool
  | [], _ => true
  | _ :: _, [] => false
  | a :: as, b :: bs => a = b && listIsPre as bs

/-- Model of JavaScript String.prototype.startsWith. -/
def strStartsWith (s pre : String) : Bool :=
  listIsPre pre.data s.data

/-- Model of Node path.isAbsolute for POSIX paths. -/
def isAbsoluteStr (s : String) : Bool :=
  strStartsWith s "/"

/-- Split a character list at every occurrence of a separator, keeping empty
segments, as splitting a string on a one-character separator does. -/
def splitOnChar (sep : Char) : List Char → List (List Char)
  | [] => [[]]
  | c :: rest =>
    let r := splitOnChar sep rest
    if c = sep then [] :: r
    else
      match r with
      | h :: t => (c :: h) :: t
      | [] => [[c]]

/-- Split a character list at every slash, keeping empty segments, exactly as
splitting a POSIX path string on the separator does. -/
def splitSlash (cs : List Char) : List (List Char) :=
  splitOnChar '/' cs

/-- Path split into raw segments. -/
def splitPath (s : String) : List String :=
  (splitSlash s.data).map (fun cs => String.mk cs)

/-- Join segments back with slashes, at the character level. -/
def joinSegsChars : List String → List Char
  | [] => []
  | [s] => s.data
  | s :: rest => s.data ++ '/' :: joinSegsChars rest

/-- Join segments back with slashes. -/
def joinSegs (l : List String) : String :=
  String.mk (joinSegsChars l)

/-- One step of absolute path normalization: empty segments and dots are
dropped, a dot-dot pops the previous segment and is a no-op at the root. -/
def normAbsStep (acc : List String) (seg : String) : List String :=
  if seg = "" ∨ seg = "." then acc
  else if seg = ".." then acc.dropLast
  else acc ++ [seg]

/-- Normalization of an absolute path given by raw segments, exactly Node
path.resolve and path.normalize on absolute inputs. -/
def normalizeAbsSegs (segs : List String) : List String :=
  segs.foldl normAbsStep []

/-- One step of relative path normalization: as the absolute step except
that leading dot-dot segments accumulate instead of vanishing. -/
def normRelStep (acc : List String) (seg : String) : List String :=
  if seg = "" ∨ seg = "." then acc
  else if seg = ".." then
    match acc.getLast? with
    | some l => if l = ".." then acc ++ [".."] else acc.dropLast
    | none => [".."]
  else acc ++ [seg]

/-- Normalization of a relative path given by raw segments, exactly Node
path.join and path.normalize on relative inputs. -/
def normalizeRelSegs (segs : List String) : List String :=
  segs.foldl normRelStep []

/-- Drop the longest common prefix of two segment lists, returning the two
remainders; the core of Node path.relative. -/
def dropCommonPre : List String → List String → List String × List String
  | a :: as, b :: bs =>
    if a = b then dropCommonPre as bs else (a :: as, b :: bs)
  | as, bs => (as, bs)

/-- Node path.relative over already-normalized absolute segment lists: one
dot-dot per remaining source segment, then the remaining target segments. -/
def relativeSegs (fromSegs toSegs : List String) : List String :=
  List.replicate (dropCommonPre fromSegs toSegs).1.length ".."
    ++ (dropCommonPre fromSegs toSegs).2

/-- Model of Node path.resolve(base, p) for an absolute base, returning the
normalized segment list of the resulting absolute path. -/
def resolveAbs (base : List String) (p : String) : List String :=
  if isAbsoluteStr p then normalizeAbsSegs (splitPath p)
  else normalizeAbsSegs (base ++ splitPath p)

/-- Segment list of the server directory, the source __dirname; a concrete
normalized absolute location standing for the deployment directory. -/
def dirnameSegs : List String := ["app", "backend"]

/-- Segment list of the uploads storage root, the source uploadsDir
(path.join of __dirname and the uploads folder). -/
def uploadsDirSegs : List String := dirnameSegs ++ ["uploads"]

/-- Embedding of resolveStoragePath from server.js: resolve the stored path
against the server directory, take the path relative to the storage root, and
reject it when that relative path starts with dot-dot or is absolute. -/
def resolveStoragePath (storedPath : String) : Except String (List String) :=
  let absolute := resolveAbs dirnameSegs storedPath
  let rel := joinSegs (relativeSegs uploadsDirSegs absolute)
  if strStartsWith rel ".." || isAbsoluteStr rel then .error "Invalid file path"
  else .ok absolute

/-- Containment in the storage root: the resolved segments extend the
segments of the uploads directory. -/
def containedInUploads (segs : List String) : Prop :=
  ∃ rest, segs = uploadsDirSegs ++ rest

example : resolveStoragePath "uploads/a.jpg" = .ok ["app", "backend", "uploads", "a.jpg"] := by
  decide

example : resolveStoragePath "../../etc/passwd" = .error "Invalid file path" := by
  decide

example : resolveStoragePath "/etc/passwd" = .error "Invalid file path" := by
  decide

example : resolveStoragePath "uploads/../server.js" = .error "Invalid file path" := by
  decide

/-- Last non-empty slash-separated part of a path, the basename Node path
functions operate on (trailing separators are skipped). -/
def baseNameChars (s : String) : List Char :=
  ((splitSlash s.data).reverse.find? (fun p => !p.isEmpty)).getD []

/-- Index of the last dot of a character list, if any. -/
def lastDotIdxAux : List Char → Nat → Option Nat
  | [], _ => none
  | c :: rest, i =>
    match lastDotIdxAux rest (i + 1) with
    | some j => some j
    | none => if c = '.' then some i else none

/-- Index of the last dot of a character list, if any. -/
def lastDotIdx (cs : List Char) : Option Nat :=
  lastDotIdxAux cs 0

/-- Model of Node path.extname: the suffix of the basename from its last dot,
empty when there is no dot, when the dot is the leading character of the
basename, or when the basename is exactly dot-dot. -/
def extnameOf (s : String) : String :=
  let base := baseNameChars s
  match lastDotIdx base with
  | none => ""
  | some i =>
    if i = 0 ∨ base = ['.', '.'] then "" else String.mk (base.drop i)

example : extnameOf "photo.JPG" = ".JPG" := by decide
example : extnameOf "archive.tar.gz" = ".gz" := by decide
example : extnameOf ".bashrc" = "" := by decide
example : extnameOf "dir.v1/file" = "" := by decide
example : extnameOf "clip.mov" = ".mov" := by decide
example : extnameOf ".." = "" := by decide
example : extnameOf "trailing." = "." := by decide

/-- Hexadecimal digit character for a value below sixteen, lowercase, as
produced by Buffer.toString of Node in hex form. -/
def hexDigitChar (n : Nat) : Char :=
  if n < 10 then Char.ofNat ('0'.toNat + n) else Char.ofNat ('a'.toNat + n - 10)

/-- Value of a hexadecimal digit character, zero on other characters; model
of the per-digit step of Buffer.from in hex form. -/
def hexCharVal (c : Char) : Nat :=
  if '0' ≤ c ∧ c ≤ '9' then c.toNat - '0'.toNat
  else if 'a' ≤ c ∧ c ≤ 'f' then c.toNat - 'a'.toNat + 10
  else if 'A' ≤ c ∧ c ≤ 'F' then c.toNat - 'A'.toNat + 10
  else 0

/-- Model of Buffer.from over a hex string: consecutive digit pairs become
bytes, a trailing unpaired character is dropped. -/
def hexToBytes : List Char → List Nat
  | c1 :: c2 :: rest => (hexCharVal c1 * 16 + hexCharVal c2) :: hexToBytes rest
  | _ => []

/-- Model of Buffer.toString in hex form over a byte list. -/
def bytesToHex (bs : List Nat) : String :=
  String.mk (bs.foldr (fun b acc => hexDigitChar (b / 16) :: hexDigitChar (b % 16) :: acc) [])

example : bytesToHex [0, 255, 16] = "00ff10" := by decide
example : hexToBytes "00ff10".data = [0, 255, 16] := by decide

/-- Base64 alphabet value of a character, none for characters outside the
alphabet; the URL-safe variants are accepted as Node does. -/
def b64CharVal (c : Char) : Option Nat :=
  if 'A' ≤ c ∧ c ≤ 'Z' then some (c.toNat - 'A'.toNat)
  else if 'a' ≤ c ∧ c ≤ 'z' then some (c.toNat - 'a'.toNat + 26)
  else if '0' ≤ c ∧ c ≤ '9' then some (c.toNat - '0'.toNat + 52)
  else if c = '+' ∨ c = '-' then some 62
  else if c = '/' ∨ c = '_' then some 63
  else none

/-- Decode a list of six-bit values into bytes: full groups of four become
three bytes, a trailing pair one byte, a trailing triple two bytes. -/
def b64DecodeSextets : List Nat → List Nat
  | a :: b :: c :: d :: rest =>
    (a * 4 + b / 16) :: ((b % 16) * 16 + c / 4) :: ((c % 4) * 64 + d) :: b64DecodeSextets rest
  | [a, b] => [a * 4 + b / 16]
  | [a, b, c] => [a * 4 + b / 16, (b % 16) * 16 + c / 4]
  | _ => []

/-- Model of Buffer.from over a base64 string: Node decodes forgivingly,
skipping characters outside the alphabet (padding and whitespace included)
and dropping an incomplete trailing unit. -/
def base64Decode (s : String) : List Nat :=
  b64DecodeSextets (s.data.filterMap b64CharVal)

example : base64Decode "QUJD" = [65, 66, 67] := by decide
example : base64Decode "QQ==" = [65] := by decide

/-- Sixty-four hexadecimal characters, the first accepted key form; model of
the anchored hex regular expression test of loadEncryptionKey. -/
def isHex64 (s : String) : Bool :=
  s.length = 64 &&
    s.data.all (fun c =>
      ('0' ≤ c && c ≤ '9') || ('a' ≤ c && c ≤ 'f') || ('A' ≤ c && c ≤ 'F'))

/-- Embedding of loadEncryptionKey from server.js: a missing or empty value
is a fatal error, a sixty-four character hex string is decoded as hex, any
other value is decoded as base64 and accepted only when exactly thirty-two
bytes result. -/
def loadEncryptionKey : Option String → Except String (List Nat)
  | none => .error "ENCRYPTION_KEY is required"
  | some raw =>
    if raw = "" then .error "ENCRYPTION_KEY is required"
    else if isHex64 raw then .ok (hexToBytes raw.data)
    else
      let decoded := base64Decode raw
      if decoded.length = 32 then .ok decoded
      else .error "ENCRYPTION_KEY must be a 32-byte key in hex or base64 form"

example :
    loadEncryptionKey (some "0000000000000000000000000000000000000000000000000000000000000000")
      = .ok (List.replicate 32 0) := by decide

example :
    loadEncryptionKey (some "QUFBQUFBQUFBQUFBQUFBQUFBQUFBQUFBQUFBQUFBQUE=")
      = .ok (List.replicate 32 65) := by
  decide

example : loadEncryptionKey (some "short") =
    .error "ENCRYPTION_KEY must be a 32-byte key in hex or base64 form" := by decide

example : loadEncryptionKey none = .error "ENCRYPTION_KEY is required" := by decide

/-- Modelled from the spec: crypto.randomBytes is a primitive outside the
repository; it is modelled as a seeded byte supply, since the program logic
depends only on the length and byte range of the produced vector. -/
def randomBytes (n : Nat) (seed : Nat) : List Nat :=
  (List.range n).map (fun i => (seed + 7919 * i) % 256)

/-- Modelled from the spec: the AES-256-GCM cipher of server.js is a Node
primitive outside the repository; its counter-mode keystream under the fixed
process key is modelled as a concrete byte function of the IV and the byte
position. -/
def keystream (iv : List Nat) (i : Nat) : Nat :=
  (iv.foldl (fun a b => (a * 131 + b) % 65536) 0 + 37 * i) % 256

/-- XOR of a byte stream with the keystream starting at a given position;
both GCM encryption and GCM decryption of the byte payload are this map. -/
def gcmXorFrom (iv : List Nat) (i : Nat) : List Nat → List Nat
  | [] => []
  | b :: bs => (b ^^^ keystream iv i) :: gcmXorFrom iv (i + 1) bs

/-- GCM byte transformation from position zero. -/
def gcmXor (iv : List Nat) (bs : List Nat) : List Nat :=
  gcmXorFrom iv 0 bs

/-- Modelled from the spec: the GCM authentication tag is a Node primitive
outside the repository; it is modelled as a concrete sixteen-byte digest of
the IV and the ciphertext, deterministic as the real tag is under a fixed
key. -/
def gcmTag (iv ct : List Nat) : List Nat :=
  (List.range 16).map
    (fun i => (ct.foldl (fun a b => (a * 31 + b) % 65536) (iv.foldl (fun a b => (a * 31 + b) % 65536) i)) % 256)

/-- Modelled from the spec: the legacy aes-256-cbc decryption kept for
pre-migration files is a Node primitive outside the repository; it is
modelled as a keyed byte transformation of the stored IV and ciphertext. -/
def cbcDecrypt (iv ct : List Nat) : List Nat :=
  ct.map (fun b => b ^^^ (iv.foldl (fun a c => (a + c) % 256) 0))

/-- One uploaded file as multer hands it to the upload route: the
user-supplied name, the declared MIME type, and the temporary path. -/
structure UploadedFile where
  originalname : String
  mimetype : String
  tmpPath : String
deriving DecidableEq, Repr

/-- One row of the files table of server.js. -/
structure FileRecord where
  album_id : Nat
  filename : String
  original_name : String
  path : String
  type : String
  size : Nat
  iv : String
  tag : Option String
deriving DecidableEq, Repr

/-- Result of encryptAndStoreFromDisk: the fields returned by the source
function, together with the written ciphertext and its absolute location,
which the source leaves on disk and which the model carries explicitly. -/
structure StoredObject where
  filename : String
  relativePath : String
  size : Nat
  ivHex : String
  tagHex : String
  ciphertext : List Nat
  absoluteSegs : List String
deriving DecidableEq, Repr

/-- Embedding of sanitizeFilename from server.js: every double quote,
backslash, newline and carriage return becomes an underscore. -/
def sanitizeFilename (s : String) : String :=
  String.mk (s.data.map (fun c =>
    if c = '"' ∨ c = '\\' ∨ c = '\n' ∨ c = '\r' then '_' else c))

/-- The Content-Disposition header value built by the download route. -/
def contentDispositionHeader (originalName : String) : String :=
  "inline; filename=\"" ++ sanitizeFilename originalName ++ "\""

/-- The quickTimeTypes set of server.js. -/
def quickTimeTypes : List String := ["video/quicktime"]

/-- The quickTimeExtensions set of server.js. -/
def quickTimeExtensions : List String := [".mov", ".qt"]

/-- ASCII lowercase of a character, the fragment of toLowerCase relevant to
extension comparison. -/
def charToLower (c : Char) : Char :=
  if 'A' ≤ c ∧ c ≤ 'Z' then Char.ofNat (c.toNat + 32) else c

/-- ASCII lowercase of a string. -/
def strToLower (s : String) : String :=
  String.mk (s.data.map charToLower)

/-- Embedding of shouldConvertToMp4 from server.js: the declared MIME type is
a QuickTime type, or the lowercased extension of the original name is a
QuickTime extension. -/
def shouldConvertToMp4 (file : UploadedFile) : Bool :=
  quickTimeTypes.contains file.mimetype ||
    quickTimeExtensions.contains (strToLower (extnameOf file.originalname))

example : shouldConvertToMp4 ⟨"a.MOV", "application/octet-stream", "/tmp/x"⟩ = true := by decide
example : shouldConvertToMp4 ⟨"a.bin", "video/quicktime", "/tmp/x"⟩ = true := by decide
example : shouldConvertToMp4 ⟨"a.jpg", "image/jpeg", "/tmp/x"⟩ = false := by decide

/-- Unlink against the temp filesystem, modelled as the list of existing
paths: removing an absent path is the ENOENT error. -/
def unlinkFile (fs : List String) (p : String) : Except String (List String) :=
  if fs.contains p then .ok (fs.filter (fun q => !(q == p))) else .error "ENOENT"

/-- Embedding of safeUnlink from server.js: an empty target is ignored, and
every unlink error is swallowed, ENOENT silently and others with a log, so
the routine always returns a filesystem and never propagates an error. -/
def safeUnlink (fs : List String) (p : String) : List String :=
  if p = "" then fs
  else
    match unlinkFile fs p with
    | .ok fs2 => fs2
    | .error _ => fs

/-- Embedding of encryptAndStoreFromDisk from server.js: draw a fresh
twelve-byte IV, name the object with the fresh identifier plus the extension,
join it under the uploads folder, stream the plaintext through the cipher to
that location, and return the metadata of the stored object. -/
def encryptAndStoreFromDisk (uuid : String) (ivSeed : Nat) (content : List Nat)
    (extension : String) : StoredObject :=
  let iv := randomBytes 12 ivSeed
  let filename := uuid ++ extension
  let relPath := joinSegs (normalizeRelSegs (splitPath "uploads" ++ splitPath filename))
  let absoluteSegs := normalizeAbsSegs (dirnameSegs ++ splitPath relPath)
  let ciphertext := gcmXor iv content
  { filename := filename
    relativePath := joinSegs (relativeSegs dirnameSegs absoluteSegs)
    size := ciphertext.length
    ivHex := bytesToHex iv
    tagHex := bytesToHex (gcmTag iv ciphertext)
    ciphertext := ciphertext
    absoluteSegs := absoluteSegs }

/-- Outcome of the external transcoder for one invocation: a produced output
temp file with its bytes, or a failure (an unavailable ffmpeg binary behaves
as a failure). -/
inductive ConvertOutcome
  | success (outPath : String) (outContent : List Nat)
  | failure (msg : String)
deriving DecidableEq, Repr

/-- Failure of persistUploadedFile: the transcoder failed, or the encrypting
stream failed mid-write. -/
inductive PersistError
  | convertFailed (msg : String)
  | encryptFailed
deriving DecidableEq, Repr

/-- Successful result of persistUploadedFile: the catalog record, the stored
object, and, as model bookkeeping, the plaintext that entered the cipher. -/
structure PersistSuccess where
  record : FileRecord
  obj : StoredObject
  plaintext : List Nat
deriving DecidableEq, Repr

/-- Tail of persistUploadedFile after the optional conversion: normalize the
extension, encrypt and store, build the record, and in every exit remove the
working temp file, as the finally block of the source does. -/
def finalizePersist (fs : List String) (workingPath : String) (content : List Nat)
    (originalName : String) (mime : String) (ext : String) (albumId : Nat) (uuid : String)
    (ivSeed : Nat) (encryptOk : Bool) : Except PersistError PersistSuccess × List String :=
  if encryptOk then
    let targetExtension :=
      if ext = "" then "" else if strStartsWith ext "." then ext else "." ++ ext
    let obj := encryptAndStoreFromDisk uuid ivSeed content targetExtension
    (.ok
        { record :=
            { album_id := albumId
              filename := obj.filename
              original_name := originalName
              path := obj.relativePath
              type := mime
              size := obj.size
              iv := obj.ivHex
              tag := some obj.tagHex }
          obj := obj
          plaintext := content },
      safeUnlink fs workingPath)
  else (.error .encryptFailed, safeUnlink fs workingPath)

/-- Embedding of persistUploadedFile from server.js over the temp
filesystem: when the file needs conversion, a transcoder success writes the
output temp file, the original is removed and processing continues on the
output with MIME video/mp4 and extension .mp4, while a transcoder failure
aborts; in every exit path the finally block removes the working temp file.
The transcoder and the encrypting stream are oracles of the model, since
their outcomes are decided outside the repository. -/
def persistUploadedFile (fs : List String) (file : UploadedFile) (content : List Nat)
    (albumId : Nat) (uuid : String) (ivSeed : Nat) (convert : ConvertOutcome)
    (encryptOk : Bool) : Except PersistError PersistSuccess × List String :=
  if shouldConvertToMp4 file then
    match convert with
    | .success outPath outContent =>
      let fs1 := outPath :: fs
      let fs2 := safeUnlink fs1 file.tmpPath
      finalizePersist fs2 outPath outContent file.originalname "video/mp4" ".mp4"
        albumId uuid ivSeed encryptOk
    | .failure msg => (.error (.convertFailed msg), safeUnlink fs file.tmpPath)
  else
    finalizePersist fs file.tmpPath content file.originalname file.mimetype
      (extnameOf file.originalname) albumId uuid ivSeed encryptOk

/-- The decryption stream the download route constructs: authenticated GCM
with a registered expected tag, or the plain legacy CBC stream. -/
inductive DecipherMode
  | gcm (iv tagBytes : List Nat)
  | cbcLegacy (iv : List Nat)
deriving DecidableEq, Repr

/-- The two-way branch of the download route on tag presence: a present tag
selects authenticated GCM decryption with the stored IV and the decoded tag
registered as expected, an absent tag selects the legacy CBC stream with the
stored IV. -/
def selectDecipher (r : FileRecord) : DecipherMode :=
  match r.tag with
  | some t => .gcm (hexToBytes r.iv.data) (hexToBytes t.data)
  | none => .cbcLegacy (hexToBytes r.iv.data)

/-- Run the selected decryption stream over the ciphertext: the GCM stream
fails when the registered tag does not match, the legacy stream performs no
integrity check. -/
def runDecipher : DecipherMode → List Nat → Option (List Nat)
  | .gcm iv tagBytes, ct => if gcmTag iv ct = tagBytes then some (gcmXor iv ct) else none
  | .cbcLegacy iv, ct => some (cbcDecrypt iv ct)

/-- Externally observable outcome of the download route: the 404 on a
missing record, the 500 the error middleware produces from a thrown or
piped error, or the streamed response with its two headers and body. -/
inductive StreamResult
  | notFound
  | internalError
  | ok (contentType : String) (disposition : String) (body : List Nat)
deriving DecidableEq, Repr

/-- Embedding of the download route of server.js over the catalog rows and
the object store contents (absolute location paired with ciphertext): look
the filename up, resolve the stored path, read and decrypt; a failed lookup
is 404, while a failed resolution, a missing object or a failed decryption
surface through the error middleware as 500. -/
def streamObject (files : List FileRecord) (store : List (String × List Nat))
    (filename : String) : StreamResult :=
  match files.find? (fun r => r.filename == filename) with
  | none => .notFound
  | some r =>
    match resolveStoragePath r.path with
    | .error _ => .internalError
    | .ok absSegs =>
      match store.find? (fun e => e.1 == joinSegs absSegs) with
      | none => .internalError
      | some e =>
        match runDecipher (selectDecipher r) e.2 with
        | none => .internalError
        | some plaintext =>
          .ok (if r.type = "" then "application/octet-stream" else r.type)
            (contentDispositionHeader r.original_name) plaintext

/-- The catalog state: album rows as identifier and permalink pairs, file
rows, and the next AUTOINCREMENT album identifier. -/
structure DbState where
  albums : List (Nat × String)
  files : List FileRecord
  nextAlbumId : Nat
deriving DecidableEq, Repr

/-- The album INSERT of the upload route, returning the new state and the
lastID the route reads back. -/
def insertAlbum (st : DbState) (permalink : String) : DbState × Nat :=
  ({ albums := st.albums ++ [(st.nextAlbumId, permalink)]
     files := st.files
     nextAlbumId := st.nextAlbumId + 1 },
    st.nextAlbumId)

/-- One file INSERT of the upload route. -/
def insertFile (st : DbState) (r : FileRecord) : DbState :=
  { st with files := st.files ++ [r] }

/-- The file INSERT loop of the upload route. -/
def insertFiles (st : DbState) (records : List FileRecord) : DbState :=
  records.foldl insertFile st

/-- Hexadecimal digit class of the UUID pattern, both cases. -/
def isHexDigitChar (c : Char) : Bool :=
  ('0' ≤ c && c ≤ '9') || ('a' ≤ c && c ≤ 'f') || ('A' ≤ c && c ≤ 'F')

/-- Embedding of validateUuid from server.js: the anchored case-insensitive
version-four-style pattern of five hex groups with the version digit between
one and five and the variant digit among eight, nine, a and b. -/
def validateUuid (s : String) : Bool :=
  match (splitOnChar '-' s.data).map (fun cs => String.mk cs) with
  | [a, b, c, d, e] =>
    a.length = 8 && a.data.all isHexDigitChar &&
    b.length = 4 && b.data.all isHexDigitChar &&
    c.length = 4 && c.data.all isHexDigitChar &&
    (match c.data with
     | v :: _ => v = '1' ∨ v = '2' ∨ v = '3' ∨ v = '4' ∨ v = '5'
     | [] => false) &&
    d.length = 4 && d.data.all isHexDigitChar &&
    (match d.data with
     | v :: _ => v = '8' ∨ v = '9' ∨ v = 'a' ∨ v = 'b' ∨ v = 'A' ∨ v = 'B'
     | [] => false) &&
    e.length = 12 && e.data.all isHexDigitChar
  | _ => false

example : validateUuid "aaaaaaaa-aaaa-4aaa-8aaa-aaaaaaaaaaaa" = true := by decide
example : validateUuid "not-a-uuid" = false := by decide
example : validateUuid "aaaaaaaa-aaaa-6aaa-8aaa-aaaaaaaaaaaa" = false := by decide

/-- The view the album route returns for one file row. -/
structure AlbumFileView where
  filename : String
  original_name : String
  type : String
  size : Nat
deriving DecidableEq, Repr

/-- Projection of a file row to the album view columns. -/
def fileView (r : FileRecord) : AlbumFileView :=
  ⟨r.filename, r.original_name, r.type, r.size⟩

/-- Externally observable outcome of the album route. -/
inductive AlbumResp
  | invalidToken
  | notFound
  | ok (files : List AlbumFileView)
deriving DecidableEq, Repr

/-- Embedding of the album route of server.js, paired with the number of
catalog queries it issues: a malformed permalink is rejected with no query,
an unknown one is 404 after the album lookup, and a known one returns the
file rows of the album in insertion order after both queries. -/
def getAlbum (st : DbState) (permalink : String) : AlbumResp × Nat :=
  if validateUuid permalink then
    match st.albums.find? (fun a => a.2 == permalink) with
    | none => (.notFound, 1)
    | some a => (.ok ((st.files.filter (fun r => r.album_id == a.1)).map fileView), 2)
  else (.invalidToken, 0)

/-- Externally observable outcome of the upload route. -/
inductive UploadResp
  | noFiles
  | okPermalink (permalink : String)
  | serverError
deriving DecidableEq, Repr

/-- The per-file loop of the upload route: build the records in order,
aborting the batch on the first failure. The per-file persistence step is a
capability parameter, as the spec models the writer. -/
def processFiles (persist : UploadedFile → Nat → Except PersistError FileRecord)
    (albumId : Nat) : List UploadedFile → Except PersistError (List FileRecord)
  | [] => .ok []
  | f :: rest =>
    match persist f albumId with
    | .error e => .error e
    | .ok r =>
      match processFiles persist albumId rest with
      | .error e => .error e
      | .ok rs => .ok (r :: rs)

/-- Embedding of the upload route of server.js over the catalog: an empty
file set is rejected before any insert; otherwise the album row is inserted
first, every file is persisted, and only then are the file rows inserted; a
persistence failure surfaces through the error middleware and the already
inserted album row stays. -/
def uploadHandler (st : DbState) (permalink : String) (files : List UploadedFile)
    (persist : UploadedFile → Nat → Except PersistError FileRecord) : UploadResp × DbState :=
  if files.isEmpty then (.noFiles, st)
  else
    let p := insertAlbum st permalink
    match processFiles persist p.2 files with
    | .error _ => (.serverError, p.1)
    | .ok records => (.okPermalink permalink, insertFiles p.1 records)

/-! Auxiliary lemmas about the path model. -/

theorem splitOnChar_ne_nil (sep : Char) (cs : List Char) : splitOnChar sep cs ≠ [] := by
  induction cs with
  | nil => simp [splitOnChar]
  | cons c rest ih =>
    simp only [splitOnChar]
    by_cases hc : c = sep
    · simp [hc]
    · cases h : splitOnChar sep rest with
      | nil => exact absurd h ih
      | cons a t => simp [hc, h]

theorem splitOnChar_no_sep (sep : Char) (cs : List Char) (h : sep ∉ cs) :
    splitOnChar sep cs = [cs] := by
  induction cs with
  | nil => rfl
  | cons c rest ih =>
    have hc : ¬ c = sep := fun e => h (by simp [e])
    have hr : sep ∉ rest := fun e => h (List.mem_cons_of_mem _ e)
    simp [splitOnChar, ih hr, hc]

theorem splitOnChar_append (sep : Char) (as bs : List Char) (h : sep ∉ as) :
    splitOnChar sep (as ++ sep :: bs) = as :: splitOnChar sep bs := by
  induction as with
  | nil => simp [splitOnChar]
  | cons a rest ih =>
    have ha : ¬ a = sep := fun e => h (by simp [e])
    have hr : sep ∉ rest := fun e => h (List.mem_cons_of_mem _ e)
    simp [splitOnChar, ih hr, ha]

theorem normAbsStep_foldl_good (l : List String) (acc : List String)
    (h : ∀ s ∈ l, s ≠ "" ∧ s ≠ "." ∧ s ≠ "..") :
    List.foldl normAbsStep acc l = acc ++ l := by
  induction l generalizing acc with
  | nil => simp
  | cons s rest ih =>
    obtain ⟨h1, h2, h3⟩ := h s (List.mem_cons_self s rest)
    have hstep : normAbsStep acc s = acc ++ [s] := by
      simp [normAbsStep, h1, h2, h3]
    rw [List.foldl_cons, hstep, ih _ (fun t ht => h t (List.mem_cons_of_mem _ ht))]
    simp

theorem normalizeAbsSegs_good (l : List String)
    (h : ∀ s ∈ l, s ≠ "" ∧ s ≠ "." ∧ s ≠ "..") : normalizeAbsSegs l = l := by
  simpa using normAbsStep_foldl_good l [] h

theorem normRelStep_foldl_good (l : List String) (acc : List String)
    (h : ∀ s ∈ l, s ≠ "" ∧ s ≠ "." ∧ s ≠ "..") :
    List.foldl normRelStep acc l = acc ++ l := by
  induction l generalizing acc with
  | nil => simp
  | cons s rest ih =>
    obtain ⟨h1, h2, h3⟩ := h s (List.mem_cons_self s rest)
    have hstep : normRelStep acc s = acc ++ [s] := by
      simp [normRelStep, h1, h2, h3]
    rw [List.foldl_cons, hstep, ih _ (fun t ht => h t (List.mem_cons_of_mem _ ht))]
    simp

theorem normalizeRelSegs_good (l : List String)
    (h : ∀ s ∈ l, s ≠ "" ∧ s ≠ "." ∧ s ≠ "..") : normalizeRelSegs l = l := by
  simpa using normRelStep_foldl_good l [] h

theorem dropCommonPre_nil_left (t : List String) : dropCommonPre [] t = ([], t) := by
  cases t <;> rfl

theorem dropCommonPre_nil_right (f : List String) : dropCommonPre f [] = (f, []) := by
  cases f <;> rfl

theorem dropCommonPre_cons_eq (a : String) (as bs : List String) :
    dropCommonPre (a :: as) (a :: bs) = dropCommonPre as bs := by
  simp [dropCommonPre]

theorem dropCommonPre_cons_ne (a b : String) (as bs : List String) (h : ¬ a = b) :
    dropCommonPre (a :: as) (b :: bs) = (a :: as, b :: bs) := by
  simp [dropCommonPre, h]

theorem dropCommonPre_self_append (l rest : List String) :
    dropCommonPre l (l ++ rest) = ([], rest) := by
  induction l with
  | nil => exact dropCommonPre_nil_left rest
  | cons a as ih => rw [List.cons_append, dropCommonPre_cons_eq, ih]

theorem dropCommonPre_split (f : List String) : ∀ t : List String,
    ∃ c, f = c ++ (dropCommonPre f t).1 ∧ t = c ++ (dropCommonPre f t).2 := by
  induction f with
  | nil =>
    intro t
    refine ⟨[], ?_, ?_⟩ <;> simp [dropCommonPre_nil_left]
  | cons a as ih =>
    intro t
    cases t with
    | nil => refine ⟨[], ?_, ?_⟩ <;> simp [dropCommonPre_nil_right]
    | cons b bs =>
      by_cases hab : a = b
      · obtain ⟨c, hc1, hc2⟩ := ih bs
        subst hab
        refine ⟨a :: c, ?_, ?_⟩
        · rw [dropCommonPre_cons_eq, List.cons_append, ← hc1]
        · rw [dropCommonPre_cons_eq, List.cons_append, ← hc2]
      · refine ⟨[], ?_, ?_⟩ <;> simp [dropCommonPre_cons_ne a b as bs hab]

theorem joinSegsChars_cons_cons (s b : String) (t : List String) :
    joinSegsChars (s :: b :: t) = s.data ++ '/' :: joinSegsChars (b :: t) := rfl

theorem strStartsWith_join_dd (xs : List String) :
    strStartsWith (joinSegs (".." :: xs)) ".." = true := by
  cases xs with
  | nil => decide
  | cons y ys =>
    have hd : "..".data = ['.', '.'] := by decide
    show listIsPre "..".data (joinSegsChars (".." :: y :: ys)) = true
    rw [joinSegsChars_cons_cons, hd]
    simp [listIsPre]

/-- Shape of the identifiers uuidv4 yields: nonempty, hexadecimal digits and
dashes only. -/
def uuidLike (u : String) : Bool :=
  (u != "") && u.data.all (fun c => isHexDigitChar c || c = '-')

theorem uuidChar_ne (c : Char) (h : (isHexDigitChar c || c = '-') = true) :
    c ≠ '.' ∧ c ≠ '/' := by
  rcases Bool.or_eq_true_iff.mp h with h1 | h2
  · constructor <;> rintro rfl <;> simp [isHexDigitChar] at h1
  · have : c = '-' := by simpa using h2
    subst this
    constructor <;> decide

theorem uuidLike_shape (u : String) (hu : uuidLike u = true) :
    ∃ c cs, u.data = c :: cs ∧ c ≠ '.' ∧ c ≠ '/' ∧ '/' ∉ u.data := by
  unfold uuidLike at hu
  rcases Bool.and_eq_true_iff.mp hu with ⟨hne, hall⟩
  have hall2 := List.all_eq_true.mp hall
  cases hd : u.data with
  | nil =>
    exfalso
    have : u = "" := by
      cases u
      simp_all
    simp [this] at hne
  | cons c cs =>
    have hc := hall2 c (by rw [hd]; exact List.mem_cons_self c cs)
    obtain ⟨h1, h2⟩ := uuidChar_ne c hc
    refine ⟨c, cs, rfl, h1, h2, ?_⟩
    intro hmem
    have hsl := hall2 '/' (by rw [hd]; exact hmem)
    obtain ⟨_, habs⟩ := uuidChar_ne '/' hsl
    exact habs rfl

theorem splitOnChar_parts_no_sep (sep : Char) (cs : List Char) :
    ∀ part ∈ splitOnChar sep cs, sep ∉ part := by
  induction cs with
  | nil =>
    intro part hp
    simp [splitOnChar] at hp
    simp [hp]
  | cons c rest ih =>
    intro part hp
    simp only [splitOnChar] at hp
    by_cases hc : c = sep
    · rw [if_pos hc] at hp
      rcases List.mem_cons.mp hp with h | h
      · simp [h]
      · exact ih part h
    · rw [if_neg hc] at hp
      cases hr : splitOnChar sep rest with
      | nil => exact absurd hr (splitOnChar_ne_nil sep rest)
      | cons hpart t =>
        rw [hr] at hp
        rcases List.mem_cons.mp hp with h | h
        · subst h
          intro hmem
          rcases List.mem_cons.mp hmem with h2 | h2
          · exact hc h2.symm
          · exact ih hpart (by rw [hr]; exact List.mem_cons_self hpart t) h2
        · exact ih part (by rw [hr]; exact List.mem_cons_of_mem hpart h)

theorem baseNameChars_no_slash (s : String) : '/' ∉ baseNameChars s := by
  unfold baseNameChars
  cases hf : (splitSlash s.data).reverse.find? (fun p => !p.isEmpty) with
  | none => simp
  | some part =>
    have hmem : part ∈ (splitSlash s.data).reverse := List.mem_of_find?_eq_some hf
    have : part ∈ splitSlash s.data := List.mem_reverse.mp hmem
    simpa using splitOnChar_parts_no_sep '/' s.data part this

theorem extnameOf_no_slash (s : String) : '/' ∉ (extnameOf s).data := by
  cases hld : lastDotIdx (baseNameChars s) with
  | none => simp [extnameOf, hld]
  | some i =>
    by_cases hsp : i = 0 ∨ baseNameChars s = ['.', '.']
    · simp [extnameOf, hld, hsp]
    · simp only [extnameOf, hld, if_neg hsp]
      intro hmem
      exact baseNameChars_no_slash s (List.drop_subset i (baseNameChars s) hmem)

/-! Auxiliary lemmas about the hex codec and the cipher model. -/

theorem hexRound16 : ∀ n < 16, hexCharVal (hexDigitChar n) = n := by decide

theorem hexToBytes_bytesToHex (bs : List Nat) (h : ∀ b ∈ bs, b < 256) :
    hexToBytes (bytesToHex bs).data = bs := by
  induction bs with
  | nil => rfl
  | cons b rest ih =>
    have hb := h b (List.mem_cons_self b rest)
    have hdata : (bytesToHex (b :: rest)).data
        = hexDigitChar (b / 16) :: hexDigitChar (b % 16) :: (bytesToHex rest).data := rfl
    rw [hdata]
    show (hexCharVal (hexDigitChar (b / 16)) * 16 + hexCharVal (hexDigitChar (b % 16)))
        :: hexToBytes (bytesToHex rest).data = b :: rest
    rw [hexRound16 (b / 16) (by omega), hexRound16 (b % 16) (by omega),
      ih (fun x hx => h x (List.mem_cons_of_mem b hx))]
    congr 1
    omega

theorem bytesToHex_length (bs : List Nat) : (bytesToHex bs).length = 2 * bs.length := by
  induction bs with
  | nil => rfl
  | cons b rest ih =>
    have ih2 : (bytesToHex rest).data.length = 2 * rest.length := ih
    show (hexDigitChar (b / 16) :: hexDigitChar (b % 16) :: (bytesToHex rest).data).length
        = 2 * (b :: rest).length
    simp [List.length_cons, ih2]
    omega

theorem hexToBytes_length (cs : List Char) : (hexToBytes cs).length = cs.length / 2 := by
  match cs with
  | [] => rfl
  | [c] =>
    have h : hexToBytes [c] = [] := rfl
    rw [h]
    simp
  | c1 :: c2 :: rest =>
    show (hexToBytes rest).length + 1 = (rest.length + 1 + 1) / 2
    rw [hexToBytes_length rest]
    omega

theorem randomBytes_length (n seed : Nat) : (randomBytes n seed).length = n := by
  simp [randomBytes]

theorem randomBytes_lt (n seed : Nat) : ∀ b ∈ randomBytes n seed, b < 256 := by
  intro b hb
  simp [randomBytes] at hb
  obtain ⟨i, _, hi⟩ := hb
  omega

theorem gcmTag_lt (iv ct : List Nat) : ∀ b ∈ gcmTag iv ct, b < 256 := by
  intro b hb
  simp [gcmTag] at hb
  obtain ⟨i, _, hi⟩ := hb
  omega

theorem gcmXorFrom_invol (iv : List Nat) (bs : List Nat) : ∀ i,
    gcmXorFrom iv i (gcmXorFrom iv i bs) = bs := by
  induction bs with
  | nil => intro i; rfl
  | cons b rest ih =>
    intro i
    show ((b ^^^ keystream iv i) ^^^ keystream iv i)
        :: gcmXorFrom iv (i + 1) (gcmXorFrom iv (i + 1) rest) = b :: rest
    rw [ih (i + 1)]
    congr 1
    simp [Nat.xor_assoc]

theorem gcmXor_invol (iv bs : List Nat) : gcmXor iv (gcmXor iv bs) = bs :=
  gcmXorFrom_invol iv bs 0

/-! Auxiliary lemmas about the temp filesystem model. -/

theorem safeUnlink_not_mem_self (fs : List String) (p : String) (hp : p ≠ "") :
    p ∉ safeUnlink fs p := by
  unfold safeUnlink unlinkFile
  rw [if_neg hp]
  by_cases hc : fs.contains p
  · rw [if_pos hc]
    intro hm
    have := (List.mem_filter.mp hm).2
    simp at this
  · rw [if_neg hc]
    simp at hc
    exact hc

theorem safeUnlink_not_mem_mono (fs : List String) (p r : String) (hq : p ∉ fs) :
    p ∉ safeUnlink fs r := by
  unfold safeUnlink unlinkFile
  by_cases hr : r = ""
  · rw [if_pos hr]; exact hq
  · rw [if_neg hr]
    by_cases hc : fs.contains r
    · rw [if_pos hc]
      intro hm
      exact hq (List.mem_filter.mp hm).1
    · rw [if_neg hc]; exact hq

theorem safeUnlink_missing (fs : List String) (p : String) (h : p ∉ fs) :
    safeUnlink fs p = fs := by
  unfold safeUnlink unlinkFile
  by_cases hp : p = ""
  · rw [if_pos hp]
  · rw [if_neg hp, if_neg (by simp [h])]

theorem foldl_safeUnlink_mono (ps : List String) : ∀ fs : List String, ∀ q ∉ fs,
    q ∉ List.foldl safeUnlink fs ps := by
  induction ps with
  | nil => intro fs q hq; exact hq
  | cons r rest ih =>
    intro fs q hq
    exact ih (safeUnlink fs r) q (safeUnlink_not_mem_mono fs q r hq)

theorem foldl_safeUnlink_removes (ps : List String) : ∀ fs : List String, ∀ p ∈ ps, p ≠ "" →
    p ∉ List.foldl safeUnlink fs ps := by
  induction ps with
  | nil => intro fs p hp; exact absurd hp (List.not_mem_nil p)
  | cons r rest ih =>
    intro fs p hp hne
    rcases List.mem_cons.mp hp with h | h
    · subst h
      exact foldl_safeUnlink_mono rest (safeUnlink fs p)
        p (safeUnlink_not_mem_self fs p hne)
    · exact ih (safeUnlink fs r) p h hne

/-! Auxiliary lemmas about the catalog model. -/

theorem insertFiles_fields (records : List FileRecord) : ∀ st : DbState,
    (insertFiles st records).albums = st.albums ∧
    (insertFiles st records).files = st.files ++ records ∧
    (insertFiles st records).nextAlbumId = st.nextAlbumId := by
  induction records with
  | nil => intro st; simp [insertFiles]
  | cons r rest ih =>
    intro st
    obtain ⟨h1, h2, h3⟩ := ih (insertFile st r)
    have hstep : insertFiles st (r :: rest) = insertFiles (insertFile st r) rest := rfl
    refine ⟨?_, ?_, ?_⟩
    · rw [hstep, h1]; rfl
    · rw [hstep, h2]
      show (st.files ++ [r]) ++ rest = st.files ++ r :: rest
      simp
    · rw [hstep, h3]; rfl

theorem find?_append_fresh (l : List (Nat × String)) (idp : Nat × String)
    (h : ∀ a ∈ l, a.2 ≠ idp.2) :
    (l ++ [idp]).find? (fun a => a.2 == idp.2) = some idp := by
  induction l with
  | nil => simp [List.find?]
  | cons x rest ih =>
    have hx := h x (List.mem_cons_self x rest)
    have hfalse : (x.2 == idp.2) = false := by simp [hx]
    show ((x :: (rest ++ [idp])).find? (fun a => a.2 == idp.2)) = some idp
    rw [List.find?_cons_of_neg _ (by simp [hx])]
    exact ih (fun a ha => h a (List.mem_cons_of_mem x ha))

theorem processFiles_album_id (persist : UploadedFile → Nat → Except PersistError FileRecord)
    (albumId : Nat)
    (hp : ∀ f aid r, persist f aid = .ok r → r.album_id = aid) :
    ∀ files records, processFiles persist albumId files = .ok records →
      ∀ r ∈ records, r.album_id = albumId := by
  intro files
  induction files with
  | nil =>
    intro records h r hr
    simp [processFiles] at h
    rw [h] at hr
    exact absurd hr (List.not_mem_nil r)
  | cons f rest ih =>
    intro records h r hr
    simp only [processFiles] at h
    cases hpf : persist f albumId with
    | error e => rw [hpf] at h; exact absurd h (by simp)
    | ok r0 =>
      rw [hpf] at h
      cases hrest : processFiles persist albumId rest with
      | error e => rw [hrest] at h; exact absurd h (by simp)
      | ok rs =>
        rw [hrest] at h
        have hrec : records = r0 :: rs := by
          injection h with h2
          exact h2.symm
        rw [hrec] at hr
        rcases List.mem_cons.mp hr with h3 | h3
        · subst h3; exact hp f albumId r hpf
        · exact ih rs hrest r h3

theorem listIsPre_cons_ne (p c : Char) (ps cs : List Char) (h : ¬ p = c) :
    listIsPre (p :: ps) (c :: cs) = false := by
  simp [listIsPre, h]

theorem fname_facts (uuid ext : String) (hu : uuidLike uuid = true) (he : '/' ∉ ext.data) :
    ('/' ∉ (uuid ++ ext).data) ∧
      ((uuid ++ ext) ≠ "" ∧ (uuid ++ ext) ≠ "." ∧ (uuid ++ ext) ≠ "..") ∧
      strStartsWith (uuid ++ ext) ".." = false ∧ isAbsoluteStr (uuid ++ ext) = false := by
  obtain ⟨c, cs, hd, hdot, hsl, hnos⟩ := uuidLike_shape uuid hu
  have hdata : (uuid ++ ext).data = c :: (cs ++ ext.data) := by
    show uuid.data ++ ext.data = _
    rw [hd]
    rfl
  refine ⟨?_, ⟨?_, ?_, ?_⟩, ?_, ?_⟩
  · rw [hdata]
    intro hm
    rcases List.mem_cons.mp hm with h | h
    · exact hsl h.symm
    · rcases List.mem_append.mp h with h2 | h2
      · exact hnos (by rw [hd]; exact List.mem_cons_of_mem c h2)
      · exact he h2
  · apply String.ne_of_data_ne
    rw [hdata]
    exact List.cons_ne_nil c (cs ++ ext.data)
  · apply String.ne_of_data_ne
    rw [hdata, (by decide : ".".data = ['.'])]
    intro hh
    injection hh with h1 h2
    exact hdot h1
  · apply String.ne_of_data_ne
    rw [hdata, (by decide : "..".data = ['.', '.'])]
    intro hh
    injection hh with h1 h2
    exact hdot h1
  · show listIsPre "..".data (uuid ++ ext).data = false
    rw [hdata, (by decide : "..".data = ['.', '.'])]
    exact listIsPre_cons_ne '.' c ['.'] (cs ++ ext.data) (fun e => hdot e.symm)
  · show listIsPre "/".data (uuid ++ ext).data = false
    rw [hdata, (by decide : "/".data = ['/'])]
    exact listIsPre_cons_ne '/' c [] (cs ++ ext.data) (fun e => hsl e.symm)

theorem splitPath_no_slash (s : String) (h : '/' ∉ s.data) : splitPath s = [s] := by
  unfold splitPath splitSlash
  rw [splitOnChar_no_sep '/' s.data h]
  rfl

theorem splitPath_joinTwo (a b : String) (ha : '/' ∉ a.data) (hb : '/' ∉ b.data) :
    splitPath (joinSegs [a, b]) = [a, b] := by
  unfold splitPath splitSlash
  have hdata : (joinSegs [a, b]).data = a.data ++ '/' :: b.data := rfl
  rw [hdata, splitOnChar_append '/' a.data b.data ha, splitOnChar_no_sep '/' b.data hb]
  rfl

theorem resolveStoragePath_uploads (fname : String) (hns : '/' ∉ fname.data)
    (hgood : fname ≠ "" ∧ fname ≠ "." ∧ fname ≠ "..")
    (hsw : strStartsWith fname ".." = false) (habs : isAbsoluteStr fname = false) :
    resolveStoragePath (joinSegs ["uploads", fname]) = .ok (uploadsDirSegs ++ [fname]) := by
  have hup : '/' ∉ "uploads".data := by decide
  have hjoin : isAbsoluteStr (joinSegs ["uploads", fname]) = false := by
    show listIsPre "/".data (joinSegs ["uploads", fname]).data = false
    have hdata : (joinSegs ["uploads", fname]).data = "uploads".data ++ '/' :: fname.data := rfl
    rw [hdata, (by decide : "/".data = ['/']),
      (by decide : "uploads".data = ['u', 'p', 'l', 'o', 'a', 'd', 's']), List.cons_append]
    exact listIsPre_cons_ne '/' 'u' [] _ (by decide)
  have hresolve : resolveAbs dirnameSegs (joinSegs ["uploads", fname])
      = uploadsDirSegs ++ [fname] := by
    unfold resolveAbs
    rw [if_neg (by simp [hjoin]), splitPath_joinTwo "uploads" fname hup hns]
    have : dirnameSegs ++ ["uploads", fname] = uploadsDirSegs ++ [fname] := rfl
    rw [this]
    apply normalizeAbsSegs_good
    intro s hs
    rcases List.mem_append.mp hs with h | h
    · fin_cases h <;> refine ⟨by decide, by decide, by decide⟩
    · rcases List.mem_singleton.mp h with rfl
      exact hgood
  have hrel : joinSegs (relativeSegs uploadsDirSegs (uploadsDirSegs ++ [fname])) = fname := by
    unfold relativeSegs
    rw [dropCommonPre_self_append]
    rfl
  unfold resolveStoragePath
  rw [hresolve]
  simp [hrel, hsw, habs]

theorem encryptAndStore_fields (uuid ext : String) (seed : Nat) (content : List Nat)
    (hu : uuidLike uuid = true) (he : '/' ∉ ext.data) :
    (encryptAndStoreFromDisk uuid seed content ext).filename = uuid ++ ext ∧
    (encryptAndStoreFromDisk uuid seed content ext).absoluteSegs
        = uploadsDirSegs ++ [uuid ++ ext] ∧
    (encryptAndStoreFromDisk uuid seed content ext).relativePath
        = joinSegs ["uploads", uuid ++ ext] ∧
    resolveStoragePath (encryptAndStoreFromDisk uuid seed content ext).relativePath
        = .ok ((encryptAndStoreFromDisk uuid seed content ext).absoluteSegs) := by
  obtain ⟨hns, hgood, hsw, hab⟩ := fname_facts uuid ext hu he
  have hup : '/' ∉ "uploads".data := by decide
  have hrelp : normalizeRelSegs (splitPath "uploads" ++ splitPath (uuid ++ ext))
      = ["uploads", uuid ++ ext] := by
    rw [(by decide : splitPath "uploads" = ["uploads"]), splitPath_no_slash _ hns]
    apply normalizeRelSegs_good
    intro s hs
    rcases List.mem_cons.mp hs with rfl | hs2
    · exact ⟨by decide, by decide, by decide⟩
    · rcases List.mem_singleton.mp hs2 with rfl
      exact hgood
  have habsv : (encryptAndStoreFromDisk uuid seed content ext).absoluteSegs
      = uploadsDirSegs ++ [uuid ++ ext] := by
    show normalizeAbsSegs (dirnameSegs ++ splitPath (joinSegs (normalizeRelSegs
        (splitPath "uploads" ++ splitPath (uuid ++ ext))))) = uploadsDirSegs ++ [uuid ++ ext]
    rw [hrelp, splitPath_joinTwo "uploads" (uuid ++ ext) hup hns]
    show normalizeAbsSegs (uploadsDirSegs ++ [uuid ++ ext]) = _
    apply normalizeAbsSegs_good
    intro s hs
    rcases List.mem_append.mp hs with h | h
    · fin_cases h <;> exact ⟨by decide, by decide, by decide⟩
    · rcases List.mem_singleton.mp h with rfl
      exact hgood
  have hrelv : (encryptAndStoreFromDisk uuid seed content ext).relativePath
      = joinSegs ["uploads", uuid ++ ext] := by
    show joinSegs (relativeSegs dirnameSegs
        ((encryptAndStoreFromDisk uuid seed content ext).absoluteSegs)) = _
    rw [habsv]
    have h2 : uploadsDirSegs ++ [uuid ++ ext] = dirnameSegs ++ ["uploads", uuid ++ ext] := rfl
    rw [h2]
    unfold relativeSegs
    rw [dropCommonPre_self_append]
    rfl
  have hresv : resolveStoragePath (encryptAndStoreFromDisk uuid seed content ext).relativePath
      = .ok ((encryptAndStoreFromDisk uuid seed content ext).absoluteSegs) := by
    rw [hrelv, habsv, resolveStoragePath_uploads (uuid ++ ext) hns hgood hsw hab]
  exact ⟨rfl, habsv, hrelv, hresv⟩

theorem targetExtension_no_slash (ext : String) (he : '/' ∉ ext.data) :
    '/' ∉ (if ext = "" then "" else if strStartsWith ext "." then ext else "." ++ ext).data := by
  by_cases h1 : ext = ""
  · simp [h1]
  · rw [if_neg h1]
    by_cases h2 : strStartsWith ext "."
    · rw [if_pos h2]; exact he
    · rw [if_neg h2]
      show '/' ∉ ".".data ++ ext.data
      intro hm
      rcases List.mem_append.mp hm with h | h
      · rw [(by decide : ".".data = ['.'])] at h
        simp at h
      · exact he h

theorem finalizePersist_ok (fs : List String) (wp : String) (content : List Nat)
    (oname mime ext : String) (albumId : Nat) (uuid : String) (seed : Nat)
    (encOk : Bool) (pr : PersistSuccess) (fs2 : List String)
    (h : finalizePersist fs wp content oname mime ext albumId uuid seed encOk = (.ok pr, fs2)) :
    pr.obj = encryptAndStoreFromDisk uuid seed content
        (if ext = "" then "" else if strStartsWith ext "." then ext else "." ++ ext) ∧
    pr.plaintext = content ∧
    pr.record = { album_id := albumId, filename := pr.obj.filename, original_name := oname,
                  path := pr.obj.relativePath, type := mime, size := pr.obj.size,
                  iv := pr.obj.ivHex, tag := some pr.obj.tagHex } ∧
    fs2 = safeUnlink fs wp := by
  cases encOk with
  | false => exact absurd h (by simp [finalizePersist])
  | true =>
    simp only [finalizePersist, if_pos] at h
    have hpr := congrArg Prod.fst h
    have hfs := congrArg Prod.snd h
    simp only at hpr hfs
    injection hpr with hpr2
    refine ⟨?_, ?_, ?_, hfs.symm⟩
    · rw [← hpr2]
    · rw [← hpr2]
    · rw [← hpr2]

theorem persist_ok_shape (fs : List String) (file : UploadedFile) (content : List Nat)
    (albumId : Nat) (uuid : String) (seed : Nat) (convert : ConvertOutcome) (encOk : Bool)
    (pr : PersistSuccess) (fs2 : List String)
    (h : persistUploadedFile fs file content albumId uuid seed convert encOk = (.ok pr, fs2)) :
    ∃ ext : String, '/' ∉ ext.data ∧
      pr.obj = encryptAndStoreFromDisk uuid seed pr.plaintext ext ∧
      pr.record.album_id = albumId ∧
      pr.record.filename = pr.obj.filename ∧
      pr.record.original_name = file.originalname ∧
      pr.record.path = pr.obj.relativePath ∧
      pr.record.iv = pr.obj.ivHex ∧
      pr.record.tag = some pr.obj.tagHex := by
  unfold persistUploadedFile at h
  by_cases hsc : shouldConvertToMp4 file
  · rw [if_pos hsc] at h
    cases convert with
    | failure msg => exact absurd h (by simp)
    | success outPath outContent =>
      obtain ⟨ho, hpl, hrec, hfs⟩ := finalizePersist_ok _ _ _ _ _ _ _ _ _ _ _ _ h
      refine ⟨".mp4", by decide, ?_, ?_, ?_, ?_, ?_, ?_, ?_⟩
      · rw [ho, hpl,
          (by decide : (if (".mp4" : String) = "" then ""
            else if strStartsWith ".mp4" "." = true then ".mp4" else "." ++ ".mp4") = ".mp4")]
      · rw [hrec]
      · rw [hrec]
      · rw [hrec]
      · rw [hrec]
      · rw [hrec]
      · rw [hrec]
  · rw [if_neg hsc] at h
    obtain ⟨ho, hpl, hrec, hfs⟩ := finalizePersist_ok _ _ _ _ _ _ _ _ _ _ _ _ h
    refine ⟨(if extnameOf file.originalname = "" then ""
        else if strStartsWith (extnameOf file.originalname) "." then extnameOf file.originalname
        else "." ++ extnameOf file.originalname),
      targetExtension_no_slash _ (extnameOf_no_slash file.originalname), ?_, ?_, ?_, ?_, ?_, ?_, ?_⟩
    · rw [ho, hpl]
    · rw [hrec]
    · rw [hrec]
    · rw [hrec]
    · rw [hrec]
    · rw [hrec]
    · rw [hrec]

theorem resolveStoragePath_contained (p : String) (segs : List String)
    (h : resolveStoragePath p = .ok segs) : containedInUploads segs := by
  unfold resolveStoragePath at h
  set absolute := resolveAbs dirnameSegs p with habs
  set rel := joinSegs (relativeSegs uploadsDirSegs absolute) with hrel
  by_cases hcheck : (strStartsWith rel ".." || isAbsoluteStr rel) = true
  · rw [if_pos hcheck] at h
    exact absurd h (by simp)
  · rw [if_neg hcheck] at h
    have hseg : absolute = segs := by
      injection h
    obtain ⟨c, hc1, hc2⟩ := dropCommonPre_split uploadsDirSegs absolute
    cases hf : (dropCommonPre uploadsDirSegs absolute).1 with
    | nil =>
      rw [hf] at hc1
      simp at hc1
      refine ⟨(dropCommonPre uploadsDirSegs absolute).2, ?_⟩
      rw [← hseg]
      nth_rewrite 1 [hc2]
      rw [← hc1]
    | cons x xsa =>
      exfalso
      apply hcheck
      have hre : rel = joinSegs (".." :: (List.replicate xsa.length ".." ++
          (dropCommonPre uploadsDirSegs absolute).2)) := by
        rw [hrel]
        unfold relativeSegs
        rw [hf]
        simp [List.replicate_succ]
      rw [hre, strStartsWith_join_dd]
      simp





/-! Claim theorems. -/

/-- C10: sanitizeFilename leaves no double quote, backslash, newline or
carriage return in its output (each such character becomes an underscore),
and the Content-Disposition header the download route builds around it
carries exactly its opening and closing quote, so a stored original name
cannot break out of the quoted filename. -/
theorem C10_sanitizeFilename (s : String) :
    (∀ c ∈ (sanitizeFilename s).data, c ≠ '"' ∧ c ≠ '\\' ∧ c ≠ '\n' ∧ c ≠ '\r') ∧
    (sanitizeFilename s).data = s.data.map (fun c =>
      if c = '"' ∨ c = '\\' ∨ c = '\n' ∨ c = '\r' then '_' else c) ∧
    (contentDispositionHeader s).data.count '"' = 2 := by
  have hmem : ∀ c ∈ (sanitizeFilename s).data, c ≠ '"' ∧ c ≠ '\\' ∧ c ≠ '\n' ∧ c ≠ '\r' := by
    intro c hc
    have hc2 : c ∈ s.data.map (fun c =>
        if c = '"' ∨ c = '\\' ∨ c = '\n' ∨ c = '\r' then '_' else c) := hc
    obtain ⟨x, _, hx⟩ := List.mem_map.mp hc2
    by_cases hbad : x = '"' ∨ x = '\\' ∨ x = '\n' ∨ x = '\r'
    · rw [if_pos hbad] at hx
      rw [← hx]
      refine ⟨by decide, by decide, by decide, by decide⟩
    · rw [if_neg hbad] at hx
      rw [← hx]
      push_neg at hbad
      exact ⟨hbad.1, hbad.2.1, hbad.2.2.1, hbad.2.2.2⟩
  refine ⟨hmem, rfl, ?_⟩
  have hdata : (contentDispositionHeader s).data
      = "inline; filename=\"".data ++ ((sanitizeFilename s).data ++ "\"".data) := by
    show ("inline; filename=\"" ++ sanitizeFilename s ++ "\"").data = _
    rw [String.data_append, String.data_append, List.append_assoc]
  rw [hdata, List.count_append, List.count_append]
  have h1 : "inline; filename=\"".data.count '"' = 1 := by decide
  have h2 : "\"".data.count '"' = 1 := by decide
  have h3 : (sanitizeFilename s).data.count '"' = 0 := by
    rw [List.count_eq_zero]
    intro hmem2
    exact (hmem '"' hmem2).1 rfl
  rw [h1, h2, h3]

/-- C10 witness: the sanitizer and the header at a concrete hostile name. -/
theorem C10_witness :
    sanitizeFilename "a\"b\\c\nd\re.jpg" = "a_b_c_d_e.jpg" ∧
    (contentDispositionHeader "a\"b.jpg").data.count '"' = 2 :=
  ⟨by decide, (C10_sanitizeFilename "a\"b.jpg").2.2⟩

/-- C5: loadEncryptionKey accepts exactly the two documented forms, a
sixty-four character hex string or a string whose base64 decoding is exactly
thirty-two bytes, returning a thirty-two byte key for each; every other
input, a missing or empty value included, is the fatal configuration
error. -/
theorem C5_keyLoading (raw : Option String) :
    (∀ k, loadEncryptionKey raw = .ok k → k.length = 32) ∧
    ((∃ k, loadEncryptionKey raw = .ok k) ↔
      ∃ s, raw = some s ∧ s ≠ "" ∧
        (isHex64 s = true ∨ (base64Decode s).length = 32)) := by
  cases raw with
  | none =>
    refine ⟨?_, ?_, ?_⟩
    · intro k hk
      exact absurd hk (by simp [loadEncryptionKey])
    · rintro ⟨k, hk⟩
      exact absurd hk (by simp [loadEncryptionKey])
    · rintro ⟨s, hs, _⟩
      exact absurd hs (by simp)
  | some s =>
    by_cases h0 : s = ""
    · subst h0
      refine ⟨?_, ?_, ?_⟩
      · intro k hk
        exact absurd hk (by simp [loadEncryptionKey])
      · rintro ⟨k, hk⟩
        exact absurd hk (by simp [loadEncryptionKey])
      · rintro ⟨t, ht, hne, _⟩
        injection ht with ht2
        exact (hne ht2.symm).elim
    · by_cases h1 : isHex64 s
      · have hok : loadEncryptionKey (some s) = .ok (hexToBytes s.data) := by
          simp [loadEncryptionKey, h0, h1]
        have hlen : (hexToBytes s.data).length = 32 := by
          rw [hexToBytes_length]
          have h1b : s.length = 64 := by
            simp [isHex64] at h1
            exact h1.1
          have h1c : s.data.length = 64 := h1b
          omega
        refine ⟨?_, ?_, ?_⟩
        · intro k hk
          rw [hok] at hk
          injection hk with hk2
          rw [← hk2]
          exact hlen
        · intro _
          exact ⟨s, rfl, h0, Or.inl h1⟩
        · intro _
          exact ⟨hexToBytes s.data, hok⟩
      · by_cases h2 : (base64Decode s).length = 32
        · have hok : loadEncryptionKey (some s) = .ok (base64Decode s) := by
            simp [loadEncryptionKey, h0, h1, h2]
          refine ⟨?_, ?_, ?_⟩
          · intro k hk
            rw [hok] at hk
            injection hk with hk2
            rw [← hk2]
            exact h2
          · intro _
            exact ⟨s, rfl, h0, Or.inr h2⟩
          · intro _
            exact ⟨base64Decode s, hok⟩
        · have herr : loadEncryptionKey (some s)
              = .error "ENCRYPTION_KEY must be a 32-byte key in hex or base64 form" := by
            simp [loadEncryptionKey, h0, h1, h2]
          refine ⟨?_, ?_, ?_⟩
          · intro k hk
            rw [herr] at hk
            exact absurd hk (by simp)
          · rintro ⟨k, hk⟩
            rw [herr] at hk
            exact absurd hk (by simp)
          · rintro ⟨t, ht, hne, hforms⟩
            injection ht with ht2
            subst ht2
            rcases hforms with h | h
            · exact (h1 h).elim
            · exact (h2 h).elim

/-- C5 witness: the all-zero hex key is accepted and is thirty-two bytes. -/
theorem C5_witness :
    loadEncryptionKey
        (some "0000000000000000000000000000000000000000000000000000000000000000")
      = .ok (List.replicate 32 0) ∧
    (List.replicate 32 (0 : Nat)).length = 32 :=
  ⟨by decide,
    (C5_keyLoading
        (some "0000000000000000000000000000000000000000000000000000000000000000")).1
      (List.replicate 32 0) (by decide)⟩

/-- C7: validation failures have no side effects: an empty upload set is
rejected with the catalog state unchanged, so no album and no file row is
created; a malformed album token is rejected before any catalog query is
issued; a well-formed but unknown token is a not-found after the single
album lookup. -/
theorem C7_validationNoSideEffects (st : DbState) (permalink p : String)
    (files : List UploadedFile)
    (persist : UploadedFile → Nat → Except PersistError FileRecord) :
    (files = [] → uploadHandler st permalink files persist = (.noFiles, st)) ∧
    (validateUuid p = false → getAlbum st p = (.invalidToken, 0)) ∧
    (validateUuid p = true → st.albums.find? (fun a => a.2 == p) = none →
      getAlbum st p = (.notFound, 1)) := by
  refine ⟨?_, ?_, ?_⟩
  · intro h
    subst h
    simp [uploadHandler]
  · intro h
    simp [getAlbum, h]
  · intro h1 h2
    simp [getAlbum, h1, h2]

/-- C7 witness: the three validation outcomes on concrete inputs. -/
theorem C7_witness :
    uploadHandler ⟨[], [], 1⟩ "tok" []
        (fun _ _ => .error (.convertFailed "boom")) = (.noFiles, ⟨[], [], 1⟩) ∧
    getAlbum ⟨[], [], 1⟩ "not-a-uuid" = (.invalidToken, 0) ∧
    getAlbum ⟨[], [], 1⟩ "aaaaaaaa-aaaa-4aaa-8aaa-aaaaaaaaaaaa" = (.notFound, 1) :=
  ⟨(C7_validationNoSideEffects ⟨[], [], 1⟩ "tok" "x" []
      (fun _ _ => .error (.convertFailed "boom"))).1 rfl,
   (C7_validationNoSideEffects ⟨[], [], 1⟩ "tok" "not-a-uuid" []
      (fun _ _ => .error (.convertFailed "boom"))).2.1 (by decide),
   (C7_validationNoSideEffects ⟨[], [], 1⟩ "tok" "aaaaaaaa-aaaa-4aaa-8aaa-aaaaaaaaaaaa" []
      (fun _ _ => .error (.convertFailed "boom"))).2.2 (by decide) (by decide)⟩

/-- C4: the reader selects the decryption mode by the two-way branch on tag
presence: a present tag builds the authenticated GCM stream with the stored
IV and the registered expected tag, an absent tag builds the legacy
non-authenticated stream with the stored IV; and every record the write path
produces carries a tag, so the legacy mode is never selected for new
writes. -/
theorem C4_modeSelection (r : FileRecord) :
    (∀ t, r.tag = some t →
      selectDecipher r = .gcm (hexToBytes r.iv.data) (hexToBytes t.data)) ∧
    (r.tag = none → selectDecipher r = .cbcLegacy (hexToBytes r.iv.data)) ∧
    (∀ fs file content albumId uuid seed convert encOk pr fs2,
      persistUploadedFile fs file content albumId uuid seed convert encOk = (.ok pr, fs2) →
      pr.record.tag.isSome = true) := by
  refine ⟨?_, ?_, ?_⟩
  · intro t ht
    simp [selectDecipher, ht]
  · intro ht
    simp [selectDecipher, ht]
  · intro fs file content albumId uuid seed convert encOk pr fs2 h
    obtain ⟨ext, _, _, _, _, _, _, _, htag⟩ := persist_ok_shape _ _ _ _ _ _ _ _ _ _ h
    rw [htag]
    rfl

/-- C1 (amended): an unknown stored name makes the download route answer
NotFound with no read performed; a catalog record whose stored path fails the
containment check makes it answer with the generic internal error of the
error middleware, which is distinct from NotFound; and every successful path
resolution, hence every read the route performs, stays inside the storage
root. -/
theorem C1_streamContainment (files : List FileRecord) (store : List (String × List Nat))
    (filename : String) :
    (files.find? (fun r => r.filename == filename) = none →
      streamObject files store filename = .notFound) ∧
    (∀ r, files.find? (fun r2 => r2.filename == filename) = some r →
      ∀ e, resolveStoragePath r.path = .error e →
        streamObject files store filename = .internalError) ∧
    (∀ p segs, resolveStoragePath p = .ok segs → containedInUploads segs) := by
  refine ⟨?_, ?_, ?_⟩
  · intro h
    simp [streamObject, h]
  · intro r hr e he
    simp [streamObject, hr, he]
  · intro p segs h
    exact resolveStoragePath_contained p segs h

/-- A catalog record whose stored path escapes the storage root. -/
def evilRecord : FileRecord :=
  { album_id := 1, filename := "evil", original_name := "e", path := "../../etc/passwd",
    type := "text/plain", size := 0, iv := "00", tag := none }

/-- C1 counterexample: a record whose stored path fails containment makes
the download route answer with the 500 of the error middleware, not with the
404 NotFound of a missing record, so the two failure causes are not surfaced
identically as the claim states. -/
theorem C1_counterexample :
    streamObject [evilRecord] [] "evil" = .internalError ∧
    streamObject [evilRecord] [] "evil" ≠ .notFound := by
  constructor <;> decide

/-- C1 witness: the amended behaviors at concrete inputs. -/
theorem C1_witness :
    streamObject [] [] "missing" = .notFound ∧
    streamObject [evilRecord, evilRecord] [] "evil" = .internalError :=
  ⟨(C1_streamContainment [] [] "missing").1 (by decide),
   (C1_streamContainment [evilRecord, evilRecord] [] "evil").2.1 evilRecord (by decide)
     "Invalid file path" (by decide)⟩

/-- C6: the transcode step triggers exactly when the declared MIME type is a
QuickTime type or the lowercased filename extension is a QuickTime extension
(either signal suffices), and a triggered upload whose conversion succeeds is
stored with content type video/mp4 under an object name that is the fresh
identifier plus the .mp4 extension. -/
theorem C6_transcodeTrigger (file : UploadedFile) :
    (shouldConvertToMp4 file = true ↔
      (quickTimeTypes.contains file.mimetype = true ∨
        quickTimeExtensions.contains (strToLower (extnameOf file.originalname)) = true)) ∧
    (∀ fs content albumId uuid seed outPath outContent encOk pr fs2,
      persistUploadedFile fs file content albumId uuid seed
          (.success outPath outContent) encOk = (.ok pr, fs2) →
      shouldConvertToMp4 file = true →
      pr.record.type = "video/mp4" ∧ pr.record.filename = uuid ++ ".mp4") := by
  constructor
  · simp [shouldConvertToMp4]
  · intro fs content albumId uuid seed outPath outContent encOk pr fs2 h hsc
    unfold persistUploadedFile at h
    rw [if_pos hsc] at h
    obtain ⟨ho, hpl, hrec, hfs⟩ := finalizePersist_ok _ _ _ _ _ _ _ _ _ _ _ _ h
    constructor
    · rw [hrec]
    · rw [hrec]
      show pr.obj.filename = uuid ++ ".mp4"
      rw [ho,
        (by decide : (if (".mp4" : String) = "" then ""
          else if strStartsWith ".mp4" "." = true then ".mp4" else "." ++ ".mp4") = ".mp4")]
      rfl

/-- C6 and C4 and C3 sample: a plain image upload, no conversion. -/
def fileA : UploadedFile := ⟨"photo.jpg", "image/jpeg", "/tmp/in"⟩

/-- Fallback value never reached by the sample extractions below. -/
def prFallback : PersistSuccess :=
  ⟨{ album_id := 0, filename := "", original_name := "", path := "", type := "", size := 0,
     iv := "", tag := none },
   { filename := "", relativePath := "", size := 0, ivHex := "", tagHex := "",
     ciphertext := [], absoluteSegs := [] },
   []⟩

/-- The persisted sample of fileA. -/
def prA : PersistSuccess :=
  match (persistUploadedFile ["/tmp/in"] fileA [7, 1, 255] 1 "deadbeef" 5
      (.failure "no") true).1 with
  | .ok pr => pr
  | .error _ => prFallback

/-- The temp filesystem left by the sample persistence of fileA. -/
def fsA : List String :=
  (persistUploadedFile ["/tmp/in"] fileA [7, 1, 255] 1 "deadbeef" 5 (.failure "no") true).2

/-- A QuickTime sample upload that triggers conversion. -/
def fileB : UploadedFile := ⟨"clip.mov", "video/quicktime", "/tmp/in2"⟩

/-- The persisted sample of fileB, going through the transcoder. -/
def prB : PersistSuccess :=
  match (persistUploadedFile ["/tmp/in2"] fileB [1, 2] 2 "ab12" 0
      (.success "/tmp/out2" [9, 8, 7]) true).1 with
  | .ok pr => pr
  | .error _ => prFallback

/-- The temp filesystem left by the sample persistence of fileB. -/
def fsB : List String :=
  (persistUploadedFile ["/tmp/in2"] fileB [1, 2] 2 "ab12" 0
      (.success "/tmp/out2" [9, 8, 7]) true).2

/-- A sample current-mode record. -/
def recTagged : FileRecord :=
  { album_id := 1, filename := "f", original_name := "o", path := "p",
    type := "t", size := 0, iv := "00", tag := some "11" }

/-- A sample legacy record, no tag. -/
def recLegacy : FileRecord :=
  { album_id := 1, filename := "f", original_name := "o", path := "p",
    type := "t", size := 0, iv := "00", tag := none }

/-- C4 witness: both branch outcomes and the tagged freshly written sample. -/
theorem C4_witness :
    selectDecipher recTagged = .gcm (hexToBytes "00".data) (hexToBytes "11".data) ∧
    selectDecipher recLegacy = .cbcLegacy (hexToBytes "00".data) ∧
    prA.record.tag.isSome = true :=
  ⟨(C4_modeSelection recTagged).1 "11" rfl,
   (C4_modeSelection recLegacy).2.1 rfl,
   (C4_modeSelection prA.record).2.2 ["/tmp/in"] fileA [7, 1, 255] 1 "deadbeef" 5
     (.failure "no") true prA fsA rfl⟩

/-- C6 witness: the QuickTime sample is stored as video/mp4 with the .mp4
object name. -/
theorem C6_witness :
    prB.record.type = "video/mp4" ∧ prB.record.filename = "ab12" ++ ".mp4" :=
  (C6_transcodeTrigger fileB).2 ["/tmp/in2"] [1, 2] 2 "ab12" 0 "/tmp/out2" [9, 8, 7] true
    prB fsB rfl (by decide)

/-- C3: every record the upload path writes in current mode stores a
twelve-byte IV as twenty-four hex characters and a non-null tag, and
streaming the stored object back through the download route yields exactly
the byte sequence that entered the cipher. -/
theorem C3_roundTrip (fs : List String) (file : UploadedFile) (content : List Nat)
    (albumId : Nat) (uuid : String) (seed : Nat) (convert : ConvertOutcome) (encOk : Bool)
    (pr : PersistSuccess) (fs2 : List String)
    (hu : uuidLike uuid = true)
    (h : persistUploadedFile fs file content albumId uuid seed convert encOk = (.ok pr, fs2)) :
    pr.record.iv.length = 24 ∧
    (hexToBytes pr.record.iv.data).length = 12 ∧
    pr.record.tag ≠ none ∧
    streamObject [pr.record] [(joinSegs pr.obj.absoluteSegs, pr.obj.ciphertext)]
        pr.record.filename
      = .ok (if pr.record.type = "" then "application/octet-stream" else pr.record.type)
          (contentDispositionHeader pr.record.original_name) pr.plaintext := by
  obtain ⟨ext, hext, ho, hal, hfn, hon, hpath, hiv, htag⟩ :=
    persist_ok_shape _ _ _ _ _ _ _ _ _ _ h
  obtain ⟨hfnv, habsv, hrelv, hres⟩ := encryptAndStore_fields uuid ext seed pr.plaintext hu hext
  have hivbytes : hexToBytes pr.record.iv.data = randomBytes 12 seed := by
    rw [hiv, ho]
    exact hexToBytes_bytesToHex _ (randomBytes_lt 12 seed)
  have htagv : hexToBytes pr.obj.tagHex.data
      = gcmTag (randomBytes 12 seed) pr.obj.ciphertext := by
    rw [ho]
    exact hexToBytes_bytesToHex _ (gcmTag_lt _ _)
  have hct : pr.obj.ciphertext = gcmXor (randomBytes 12 seed) pr.plaintext := by
    rw [ho]
    rfl
  have hsel : selectDecipher pr.record
      = .gcm (randomBytes 12 seed) (gcmTag (randomBytes 12 seed) pr.obj.ciphertext) := by
    simp only [selectDecipher, htag]
    rw [hivbytes, htagv]
  have hrun : runDecipher (selectDecipher pr.record) pr.obj.ciphertext = some pr.plaintext := by
    rw [hsel]
    simp only [runDecipher]
    simp [hct, gcmXor_invol]
  have hfind : List.find? (fun r => r.filename == pr.record.filename) [pr.record]
      = some pr.record := by
    simp [List.find?]
  have hresolve : resolveStoragePath pr.record.path = .ok pr.obj.absoluteSegs := by
    rw [hpath, ho]
    exact hres
  have hstore : List.find? (fun e => e.1 == joinSegs pr.obj.absoluteSegs)
      [(joinSegs pr.obj.absoluteSegs, pr.obj.ciphertext)]
      = some (joinSegs pr.obj.absoluteSegs, pr.obj.ciphertext) := by
    simp [List.find?]
  refine ⟨?_, ?_, ?_, ?_⟩
  · rw [hiv, ho]
    show (bytesToHex (randomBytes 12 seed)).length = 24
    rw [bytesToHex_length, randomBytes_length]
  · rw [hivbytes, randomBytes_length]
  · rw [htag]
    simp
  · simp only [streamObject, hfind, hresolve, hstore, hrun]

/-- C3 witness: the concrete sample upload round-trips through the store. -/
theorem C3_witness :
    prA.record.iv.length = 24 ∧
    (hexToBytes prA.record.iv.data).length = 12 ∧
    prA.record.tag ≠ none ∧
    streamObject [prA.record] [(joinSegs prA.obj.absoluteSegs, prA.obj.ciphertext)]
        prA.record.filename
      = .ok (if prA.record.type = "" then "application/octet-stream" else prA.record.type)
          (contentDispositionHeader prA.record.original_name) prA.plaintext :=
  C3_roundTrip ["/tmp/in"] fileA [7, 1, 255] 1 "deadbeef" 5 (.failure "no") true prA fsA
    (by decide) rfl

/-- C9: every record the encrypting write path produces stores a relative
path, the uploads folder joined with the fresh identifier plus optional
extension, that read-time resolution resolves without error to the absolute
location of the written ciphertext object, contained in the storage root. -/
theorem C9_writeReadConsistency (fs : List String) (file : UploadedFile) (content : List Nat)
    (albumId : Nat) (uuid : String) (seed : Nat) (convert : ConvertOutcome) (encOk : Bool)
    (pr : PersistSuccess) (fs2 : List String)
    (hu : uuidLike uuid = true)
    (h : persistUploadedFile fs file content albumId uuid seed convert encOk = (.ok pr, fs2)) :
    resolveStoragePath pr.record.path = .ok pr.obj.absoluteSegs ∧
    containedInUploads pr.obj.absoluteSegs := by
  obtain ⟨ext, hext, ho, _, _, _, hpath, _, _⟩ := persist_ok_shape _ _ _ _ _ _ _ _ _ _ h
  obtain ⟨_, habsv, _, hres⟩ := encryptAndStore_fields uuid ext seed pr.plaintext hu hext
  constructor
  · rw [hpath, ho]
    exact hres
  · rw [ho, habsv]
    exact ⟨[uuid ++ ext], rfl⟩

/-- C9 witness: the converted sample resolves back to its stored object. -/
theorem C9_witness :
    resolveStoragePath prB.record.path = .ok prB.obj.absoluteSegs ∧
    containedInUploads prB.obj.absoluteSegs :=
  C9_writeReadConsistency ["/tmp/in2"] fileB [1, 2] 2 "ab12" 0
    (.success "/tmp/out2" [9, 8, 7]) true prB fsB (by decide) rfl

/-- C8: on every exit path of the upload persistence, success, transcoder
failure or encryption failure, the original temp file and any transcode
output temp file are gone from the temp filesystem; safeUnlink is total,
treats a missing file as a non-error idempotent outcome, and the handler
finally block removes every uploaded temp path. -/
theorem C8_tempCleanup (fs : List String) (file : UploadedFile) (content : List Nat)
    (albumId : Nat) (uuid : String) (seed : Nat) (convert : ConvertOutcome) (encOk : Bool) :
    (file.tmpPath ≠ "" →
      file.tmpPath ∉ (persistUploadedFile fs file content albumId uuid seed convert encOk).2) ∧
    (∀ outPath outContent, convert = .success outPath outContent → outPath ≠ "" →
      shouldConvertToMp4 file = true →
      outPath ∉ (persistUploadedFile fs file content albumId uuid seed convert encOk).2) ∧
    (∀ fsx p, p ∉ fsx → safeUnlink fsx p = fsx) ∧
    (∀ (fsx ps : List String) (p : String), p ∈ ps → p ≠ "" →
      p ∉ ps.foldl safeUnlink fsx) := by
  have hfin : ∀ fsx wp c oname mime ext aid u sd eo,
      (finalizePersist fsx wp c oname mime ext aid u sd eo).2 = safeUnlink fsx wp := by
    intro fsx wp c oname mime ext aid u sd eo
    cases eo <;> rfl
  refine ⟨?_, ?_, ?_, ?_⟩
  · intro hne
    unfold persistUploadedFile
    by_cases hsc : shouldConvertToMp4 file = true
    · rw [if_pos hsc]
      cases convert with
      | success o oc =>
        show file.tmpPath ∉ (finalizePersist (safeUnlink (o :: fs) file.tmpPath) o oc
            file.originalname "video/mp4" ".mp4" albumId uuid seed encOk).2
        rw [hfin]
        exact safeUnlink_not_mem_mono _ _ _ (safeUnlink_not_mem_self _ _ hne)
      | failure msg =>
        show file.tmpPath ∉ safeUnlink fs file.tmpPath
        exact safeUnlink_not_mem_self _ _ hne
    · rw [if_neg hsc, hfin]
      exact safeUnlink_not_mem_self _ _ hne
  · intro o oc hcv hone hsc
    subst hcv
    unfold persistUploadedFile
    rw [if_pos hsc]
    show o ∉ (finalizePersist (safeUnlink (o :: fs) file.tmpPath) o oc
        file.originalname "video/mp4" ".mp4" albumId uuid seed encOk).2
    rw [hfin]
    exact safeUnlink_not_mem_self _ _ hone
  · intro fsx p hp
    exact safeUnlink_missing fsx p hp
  · intro fsx ps p hp hne
    exact foldl_safeUnlink_removes ps fsx p hp hne

/-- C8 witness: cleanup observed on the concrete samples. -/
theorem C8_witness :
    "/tmp/in" ∉ (persistUploadedFile ["/tmp/in"] fileA [7, 1, 255] 1 "deadbeef" 5
        (.failure "no") true).2 ∧
    "/tmp/out2" ∉ (persistUploadedFile ["/tmp/in2"] fileB [1, 2] 2 "ab12" 0
        (.success "/tmp/out2" [9, 8, 7]) true).2 ∧
    safeUnlink ["/tmp/a"] "/tmp/x" = ["/tmp/a"] ∧
    "/tmp/a" ∉ ["/tmp/a", "/tmp/b"].foldl safeUnlink ["/tmp/a", "/tmp/b"] :=
  ⟨(C8_tempCleanup ["/tmp/in"] fileA [7, 1, 255] 1 "deadbeef" 5 (.failure "no") true).1
      (by decide),
   (C8_tempCleanup ["/tmp/in2"] fileB [1, 2] 2 "ab12" 0
        (.success "/tmp/out2" [9, 8, 7]) true).2.1 "/tmp/out2" [9, 8, 7] rfl (by decide)
      (by decide),
   (C8_tempCleanup [] fileA [] 0 "" 0 (.failure "") true).2.2.1 ["/tmp/a"] "/tmp/x"
      (by decide),
   (C8_tempCleanup [] fileA [] 0 "" 0 (.failure "") true).2.2.2 ["/tmp/a", "/tmp/b"]
      ["/tmp/a", "/tmp/b"] "/tmp/a" (by decide) (by decide)⟩

theorem getAlbum_found (st : DbState) (p : String) (a : Nat × String)
    (hval : validateUuid p = true)
    (hfind : st.albums.find? (fun x => x.2 == p) = some a) :
    getAlbum st p
      = (.ok ((st.files.filter (fun r => r.album_id == a.1)).map fileView), 2) := by
  simp [getAlbum, hval, hfind]

/-- C2 (amended): the upload route inserts the album row before persisting
any file, so the album is externally visible with an empty file list while
the upload is in flight and after a failed upload, GetAlbum answering with
the empty album rather than NotFound; once the upload completes
successfully, GetAlbum on the token returns the complete file list in
insertion order. -/
theorem C2_albumVisibility (st : DbState) (permalink : String) (files : List UploadedFile)
    (persist : UploadedFile → Nat → Except PersistError FileRecord)
    (records : List FileRecord)
    (hval : validateUuid permalink = true)
    (hfresh : ∀ a ∈ st.albums, a.2 ≠ permalink)
    (hfiles : ∀ r ∈ st.files, r.album_id ≠ st.nextAlbumId)
    (hpersist : ∀ f aid r, persist f aid = .ok r → r.album_id = aid)
    (hproc : processFiles persist st.nextAlbumId files = .ok records)
    (hne : files ≠ []) :
    (getAlbum (uploadHandler st permalink files persist).2 permalink).1
        = .ok (records.map fileView) ∧
    (getAlbum (insertAlbum st permalink).1 permalink).1 = .ok [] := by
  have hfind : ((insertAlbum st permalink).1.albums).find? (fun x => x.2 == permalink)
      = some (st.nextAlbumId, permalink) := by
    show (st.albums ++ [(st.nextAlbumId, permalink)]).find? (fun x => x.2 == permalink)
        = some (st.nextAlbumId, permalink)
    exact find?_append_fresh st.albums (st.nextAlbumId, permalink) hfresh
  constructor
  · have hhandler : (uploadHandler st permalink files persist).2
        = insertFiles (insertAlbum st permalink).1 records := by
      unfold uploadHandler
      cases files with
      | nil => exact absurd rfl hne
      | cons f fl =>
        rw [if_neg (by simp)]
        have hp2 : (insertAlbum st permalink).2 = st.nextAlbumId := rfl
        simp only [hp2, hproc]
    rw [hhandler]
    obtain ⟨ha, hf, _⟩ := insertFiles_fields records (insertAlbum st permalink).1
    have hfind2 : ((insertFiles (insertAlbum st permalink).1 records).albums).find?
        (fun x => x.2 == permalink) = some (st.nextAlbumId, permalink) := by
      rw [ha]
      exact hfind
    have hmem := processFiles_album_id persist st.nextAlbumId hpersist files records hproc
    have hfilter : ((insertFiles (insertAlbum st permalink).1 records).files).filter
        (fun r => r.album_id == st.nextAlbumId) = records := by
      rw [hf]
      have hsf : (insertAlbum st permalink).1.files = st.files := rfl
      rw [hsf, List.filter_append]
      rw [List.filter_eq_nil_iff.mpr (fun a ha2 => by simp [hfiles a ha2])]
      rw [List.filter_eq_self.mpr (fun a ha2 => by simp [hmem a ha2])]
      simp
    rw [getAlbum_found _ permalink (st.nextAlbumId, permalink) hval hfind2]
    simp [hfilter]
  · have hempty : ((insertAlbum st permalink).1.files).filter
        (fun r => r.album_id == st.nextAlbumId) = [] := by
      have hsf : (insertAlbum st permalink).1.files = st.files := rfl
      rw [hsf]
      exact List.filter_eq_nil_iff.mpr (fun a ha2 => by simp [hfiles a ha2])
    rw [getAlbum_found _ permalink (st.nextAlbumId, permalink) hval hfind]
    simp [hempty]

/-- A sample uploaded file for the catalog scenarios. -/
def uploadedSample : UploadedFile := ⟨"a.jpg", "image/jpeg", "/tmp/a"⟩

/-- The record a stub persistence step returns for a given album. -/
def persistStub (aid : Nat) : FileRecord :=
  { album_id := aid, filename := "f1", original_name := "a.jpg", path := "uploads/f1",
    type := "image/jpeg", size := 3, iv := "00", tag := some "11" }

/-- C2 counterexample: with an empty catalog, a one-file upload whose
persistence fails still leaves the already-inserted album row behind: the
album route then answers with an empty file list, not NotFound, so an album
with zero files is externally observable after a failed upload, against the
claim. -/
theorem C2_counterexample :
    (getAlbum (uploadHandler ⟨[], [], 1⟩ "aaaaaaaa-aaaa-4aaa-8aaa-aaaaaaaaaaaa"
        [uploadedSample] (fun _ _ => .error (.convertFailed "boom"))).2
      "aaaaaaaa-aaaa-4aaa-8aaa-aaaaaaaaaaaa").1 = .ok [] ∧
    (getAlbum (uploadHandler ⟨[], [], 1⟩ "aaaaaaaa-aaaa-4aaa-8aaa-aaaaaaaaaaaa"
        [uploadedSample] (fun _ _ => .error (.convertFailed "boom"))).2
      "aaaaaaaa-aaaa-4aaa-8aaa-aaaaaaaaaaaa").1 ≠ .notFound := by
  constructor <;> decide

/-- C2 witness: the amended claim at a concrete successful upload. -/
theorem C2_witness :
    (getAlbum (uploadHandler ⟨[], [], 1⟩ "aaaaaaaa-aaaa-4aaa-8aaa-aaaaaaaaaaaa"
        [uploadedSample] (fun _ aid => .ok (persistStub aid))).2
      "aaaaaaaa-aaaa-4aaa-8aaa-aaaaaaaaaaaa").1 = .ok ([persistStub 1].map fileView) ∧
    (getAlbum (insertAlbum ⟨[], [], 1⟩ "aaaaaaaa-aaaa-4aaa-8aaa-aaaaaaaaaaaa").1
      "aaaaaaaa-aaaa-4aaa-8aaa-aaaaaaaaaaaa").1 = .ok [] :=
  C2_albumVisibility ⟨[], [], 1⟩ "aaaaaaaa-aaaa-4aaa-8aaa-aaaaaaaaaaaa"
    [uploadedSample] (fun _ aid => .ok (persistStub aid)) [persistStub 1]
    (by decide) (by simp) (by simp)
    (fun f aid r h => by
      injection h with h2
      rw [← h2]
      rfl)
    (by decide) (by simp)
